import Mathlib

set_option autoImplicit false

/-!
Verification development for the propdatascraper repository.

Each Python function relevant to the claims is shallowly embedded as an
executable Lean definition.  Randomness (delays, user-agent choice) and the
network are modelled as explicit environment parameters; the sequence of
per-attempt HTTP outcomes is a parameter, and the trace of sleeps/attempts is
returned as data, so that timing/backoff behaviour becomes provable structure.
-/

/-! ### Embedding of `convert_k_to_thousands` (src/scrape_plans.py, lines 42-57)

The Python function substitutes every occurrence of the regex
`(\d+(?:\.\d+)?)K` (case-insensitive) in the input, replacing the matched
numeric token `n` by `n * 1000`, formatted `f"{int(v):,}"` when the scaled
value is integral and `f"{v:,.1f}"` otherwise.

The embedding performs the decimal arithmetic exactly (digit strings) instead
of via IEEE doubles, so it is a faithful model of the source only on tokens
whose double computation is exact, and every theorem below stays inside that
region.  For an integer token `n` of at most 13 digits the doubles are exact:
`n < 2^53`, so `float(n) = n`, and `n * 1000 = (125 * n) * 2^3` with
`125 * n < 1.25 * 10^15 < 2^53`, so the true product is representable and the
correctly rounded multiplication returns exactly `n * 1000`, `is_integer()`
holds, and `int(num_value)` is exact — the universally quantified theorem
carries this 13-digit bound.  (Beyond it the source and the exact model
diverge: `float("9007199254740993") = 9007199254740992.0`.)  The fractional
tokens appearing below (`2.5`, `1.2345`) were each checked against the double
semantics: `2.5 * 1000` is exactly `2500.0`, and `float("1.2345") * 1000` is
`1234.4999999999999...`, whose correctly rounded `{:,.1f}` rendering equals
the exact model's `"1,234.5"`.  The left-to-right scan with maximal munch is
equivalent to the regex engine's behaviour for this pattern: giving back
digits from a greedy `\d+`/`\.\d+` can never produce a match that maximal
munch misses, because the character following a shortened digit run is
itself a digit. -/

def digitVal (c : Char) : Nat := c.toNat - '0'.toNat

def digitsToNat (ds : List Char) : Nat :=
  ds.foldl (fun n c => 10 * n + digitVal c) 0

/-- Group a reversed digit list in threes, inserting `,` (the reversal of
Python's `{:,}` formatting). -/
def commaGroup : List Char → List Char
  | a :: b :: c :: d :: rest => a :: b :: c :: ',' :: commaGroup (d :: rest)
  | l => l

def insertCommas (s : String) : String := ⟨(commaGroup s.data.reverse).reverse⟩

def formatNatCommas (n : Nat) : String := insertCommas (toString n)

/-- Maximal run of decimal digits, plus the rest of the input. -/
def takeDigits : List Char → List Char × List Char
  | [] => ([], [])
  | c :: cs =>
    if c.isDigit then
      let p := takeDigits cs
      (c :: p.1, p.2)
    else ([], c :: cs)

/-- The suffix letter `K`, matched case-insensitively (re.IGNORECASE). -/
def isK (c : Char) : Bool := c = 'K' || c = 'k'

/-- Try to match `(\d+(?:\.\d+)?)[Kk]` at the head of the input; on success
return the integer digits, the fractional digits and the remaining input. -/
def matchKAt (cs : List Char) : Option (List Char × List Char × List Char) :=
  let p := takeDigits cs
  if p.1.isEmpty then none
  else
    match p.2 with
    | c :: rs =>
      if isK c then some (p.1, [], rs)
      else if c = '.' then
        let q := takeDigits rs
        if q.1.isEmpty then none
        else
          match q.2 with
          | k :: rs2 => if isK k then some (p.1, q.1, rs2) else none
          | [] => none
      else none
    | [] => none

/-- Compare the digit tail beyond the kept decimal place with one half of a
unit in that place (used by the `{:,.1f}` rounding). -/
def cmpHalf : List Char → Ordering
  | [] => Ordering.lt
  | c :: cs =>
    if c < '5' then Ordering.lt
    else if '5' < c then Ordering.gt
    else if cs.any (fun d => d ≠ '0') then Ordering.gt
    else Ordering.eq

/-- The replacement text for a matched token with integer digits `d` and
fractional digits `f`: the value `d.f * 1000`, comma-grouped; rendered with
one decimal place exactly when the scaled value is not an integer.  The
integer/decimal branch choice and the rounding are taken on the exact scaled
decimal; they coincide with the source's test and formatting of the double
`num_value` exactly when that double computation is exact, the region the
theorems quantify over (see the section comment above). -/
def replacementK (d f : List Char) : List Char :=
  let f3 := (f ++ List.replicate 3 '0').take 3
  let intDigits := d ++ f3
  let rem := f.drop 3
  if rem.all (fun c => c = '0') then
    (formatNatCommas (digitsToNat intDigits)).data
  else
    let f1 := digitVal (rem.headD '0')
    let tail := rem.drop 1
    let up : Bool :=
      match cmpHalf tail with
      | Ordering.gt => true
      | Ordering.lt => false
      | Ordering.eq => f1 % 2 == 1
    let n := digitsToNat intDigits
    let adj : Nat × Nat := if up then (if f1 = 9 then (n + 1, 0) else (n, f1 + 1)) else (n, f1)
    (formatNatCommas adj.1).data ++ '.' :: (toString adj.2).data

/-- Left-to-right non-overlapping substitution, as `re.sub` performs it.  The
fuel argument is instantiated with the input length, which always suffices. -/
def convertAux : Nat → List Char → List Char
  | 0, _ => []
  | _, [] => []
  | fuel + 1, c :: cs =>
    match matchKAt (c :: cs) with
    | some (d, f, rest) => replacementK d f ++ convertAux fuel rest
    | none => c :: convertAux fuel cs

/-- Embedding of `convert_k_to_thousands` from src/scrape_plans.py. -/
def convert_k_to_thousands (s : String) : String :=
  ⟨convertAux s.data.length s.data⟩

/-! ### Claim C2 : behaviour of `convert_k_to_thousands` -/

theorem takeDigits_digits_append (d : List Char) (r : List Char)
    (hd : ∀ c ∈ d, c.isDigit) (hr : ∀ c rs, r = c :: rs → c.isDigit = false) :
    takeDigits (d ++ r) = (d, r) := by
  induction d with
  | nil =>
    cases r with
    | nil => rfl
    | cons c rs =>
      simp only [List.nil_append, takeDigits, hr c rs rfl]
      simp
  | cons c d ih =>
    have hc : c.isDigit := hd c (List.mem_cons_self c d)
    have ih2 := ih (fun x hx => hd x (List.mem_cons_of_mem c hx))
    simp only [List.cons_append, takeDigits, hc, if_true, List.append_eq, ih2]

theorem matchKAt_digitsK (d : List Char) (hne : d ≠ []) (hd : ∀ c ∈ d, c.isDigit) :
    matchKAt (d ++ ['K']) = some (d, [], []) := by
  have h := takeDigits_digits_append d ['K'] hd
    (by intro c rs h; cases h; decide)
  simp only [matchKAt, h]
  have : d.isEmpty = false := by
    cases d with
    | nil => exact absurd rfl hne
    | cons a l => rfl
  simp [this, isK]

theorem digitsToNat_append_three_zeros (d : List Char) :
    digitsToNat (d ++ ['0', '0', '0']) = digitsToNat d * 1000 := by
  simp only [digitsToNat, List.foldl_append, List.foldl_cons, List.foldl_nil]
  have h0 : digitVal '0' = 0 := rfl
  simp only [h0]
  ring

theorem convertAux_nil (fuel : Nat) : convertAux fuel [] = [] := by
  cases fuel <;> rfl

/-- C2, counterexample.  The claim states that `"2.5K"` normalizes to
`"2,500.0"`; the code's integer branch fires because 2.5 × 1000 is an
integer, so the result is `"2,500"`. -/
theorem claim_C2_counterexample :
    convert_k_to_thousands "2.5K" = "2,500" ∧
    convert_k_to_thousands "2.5K" ≠ "2,500.0" := by
  constructor
  · rfl
  · decide

/-- C2 (amended).  A trailing case-insensitive `K` on a numeric token is
expanded ×1000 and rendered with thousands separators, preserving any leading
currency symbol; a fractional token keeps one decimal place only when the
scaled value is not an integer, so `"2.5K"` gives `"2,500"` (not
`"2,500.0"`), while `"1.2345K"` gives `"1,234.5"`.  The first conjunct is the
integer-token law `nK ↦ group(n*1000)` for tokens of at most 13 digits — the
region in which the source's double computation `float(n) * 1000` is exactly
`n * 1000` (see the section comment); beyond double precision the source
rounds and the law does not hold of the program. -/
theorem claim_C2_theorem :
    (∀ d : List Char, d ≠ [] → d.length ≤ 13 → (∀ c ∈ d, c.isDigit) →
      convert_k_to_thousands ⟨d ++ ['K']⟩ = formatNatCommas (digitsToNat d * 1000)) ∧
    convert_k_to_thousands "$50K" = "$50,000" ∧
    convert_k_to_thousands "2.5K" = "2,500" ∧
    convert_k_to_thousands "1.2345K" = "1,234.5" := by
  refine ⟨?_, rfl, rfl, rfl⟩
  intro d hne _hlen hd
  cases d with
  | nil => exact absurd rfl hne
  | cons c d' =>
    show String.mk (convertAux ((c :: d' ++ ['K']).length) (c :: d' ++ ['K']))
        = formatNatCommas (digitsToNat (c :: d') * 1000)
    have hlen : (c :: d' ++ ['K']).length = (d'.length + 1) + 1 := by simp
    rw [hlen]
    have hm := matchKAt_digitsK (c :: d') hne hd
    simp only [List.cons_append] at hm ⊢
    simp only [convertAux, hm]
    rw [List.append_nil]
    have hrep : replacementK (c :: d') [] =
        (formatNatCommas (digitsToNat ((c :: d') ++ ['0', '0', '0']))).data := rfl
    rw [hrep, digitsToNat_append_three_zeros]

/-- C2, witness: the general conjunct of the amended theorem applied to the
token `"50"` reproduces the claim's example `"50K" ↦ "50,000"`. -/
theorem claim_C2_witness :
    convert_k_to_thousands ⟨['5', '0'] ++ ['K']⟩
      = formatNatCommas (digitsToNat ['5', '0'] * 1000) ∧
    formatNatCommas (digitsToNat ['5', '0'] * 1000) = "50,000" :=
  ⟨claim_C2_theorem.1 ['5', '0'] (by decide) (by decide) (by decide), rfl⟩

/-! ### Embedding of `_make_request` / `_handle_403_error`
(src/scrapers/BaseScraper.py lines 64-106; the copies in
src/scrapers/scraper_apex.py lines 47-94 and scraper_tradeify.py lines 63-105
are textually identical in behaviour).

The network is modelled by `outs : Nat → AttemptOutcome`, giving the outcome
of the `session.get` on each attempt (a response with a status code, or a
raised `requests.RequestException`).  `random.choice` over the user-agent pool
is modelled by `uas : Nat → String`.  The session's mutable header state is
threaded explicitly; only the keys the code ever mutates are modelled.  The
function returns the value the Python function returns (`None`, or the
response, represented by its status code), the session headers after the call
— they persist on `self.session` — and a chronological trace of sleeps and
attempted GETs. -/

structure Headers where
  userAgent : String
  referer : Option String
  secChUa : Option String
  secChUaMobile : Option String
  secChUaPlatform : Option String
deriving DecidableEq, Repr

/-- The header state set up in `__init__` / `_get_default_headers`: no
`Referer` and no `Sec-Ch-Ua*` keys are present initially. -/
def defaultHeaders : Headers :=
  { userAgent := "Mozilla/5.0 (Windows NT 10.0; Win64; x64) AppleWebKit/537.36 (KHTML, like Gecko) Chrome/120.0.0.0 Safari/537.36"
  , referer := none
  , secChUa := none
  , secChUaMobile := none
  , secChUaPlatform := none }

/-- Embedding of `_handle_403_error`: `session.headers.update({...})`. -/
def handle403Error (h : Headers) : Headers :=
  { h with
    referer := some "https://www.google.com/"
  , secChUa := some "\"Not_A Brand\";v=\"8\", \"Chromium\";v=\"120\", \"Google Chrome\";v=\"120\""
  , secChUaMobile := some "?0"
  , secChUaPlatform := some "\"Windows\"" }

inductive AttemptOutcome where
  | response (status : Nat)
  | requestError
deriving DecidableEq, Repr

inductive FetchEvent where
  | retrySleep
  | attempt (i : Nat) (h : Headers)
  | rateLimitSleep
deriving DecidableEq, Repr

/-- One pass of the `for attempt in range(max_retries)` loop, with `fuel`
remaining iterations and `i` the current value of `attempt`.  `retrySleep`
stands for the `time.sleep(random.uniform(2, 5))` executed before every
attempt but the first, `rateLimitSleep` for the extra
`time.sleep(random.uniform(10, 20))` after an HTTP 429. -/
def makeRequestAux (outs : Nat → AttemptOutcome) (uas : Nat → String) :
    Nat → Nat → Headers → Option Nat × Headers × List FetchEvent
  | 0, _, h => (none, h, [])
  | fuel + 1, i, h =>
    let pre : List FetchEvent := if 0 < i then [FetchEvent.retrySleep] else []
    let h1 := { h with userAgent := uas i }
    match outs i with
    | AttemptOutcome.response s =>
      if s = 200 then (some 200, h1, pre ++ [FetchEvent.attempt i h1])
      else if s = 403 then
        let r := makeRequestAux outs uas fuel (i + 1) (handle403Error h1)
        (r.1, r.2.1, pre ++ FetchEvent.attempt i h1 :: r.2.2)
      else if s = 429 then
        let r := makeRequestAux outs uas fuel (i + 1) h1
        (r.1, r.2.1, pre ++ FetchEvent.attempt i h1 :: FetchEvent.rateLimitSleep :: r.2.2)
      else
        let r := makeRequestAux outs uas fuel (i + 1) h1
        (r.1, r.2.1, pre ++ FetchEvent.attempt i h1 :: r.2.2)
    | AttemptOutcome.requestError =>
      let r := makeRequestAux outs uas fuel (i + 1) h1
      (r.1, r.2.1, pre ++ FetchEvent.attempt i h1 :: r.2.2)

/-- `_make_request(url, max_retries)` with the session headers it starts
from, also exposing the final session headers and the event trace. -/
def makeRequestFull (outs : Nat → AttemptOutcome) (uas : Nat → String)
    (maxRetries : Nat) (h : Headers) : Option Nat × Headers × List FetchEvent :=
  makeRequestAux outs uas maxRetries 0 h

/-- The value `_make_request` returns to its caller: `None`, or a response
(represented by its status code). -/
def makeRequest (outs : Nat → AttemptOutcome) (uas : Nat → String)
    (maxRetries : Nat) : Option Nat :=
  (makeRequestFull outs uas maxRetries defaultHeaders).1

def isAttemptEvent : FetchEvent → Bool
  | FetchEvent.attempt _ _ => true
  | _ => false

def isRetrySleep : FetchEvent → Bool
  | FetchEvent.retrySleep => true
  | _ => false

def isRateLimitSleep : FetchEvent → Bool
  | FetchEvent.rateLimitSleep => true
  | _ => false

def countAttempts (evs : List FetchEvent) : Nat := evs.countP isAttemptEvent
def countRetrySleeps (evs : List FetchEvent) : Nat := evs.countP isRetrySleep
def countRateLimitSleeps (evs : List FetchEvent) : Nat := evs.countP isRateLimitSleep

/-- Number of indices `i, i+1, ..., i+k-1` on which the environment answers
HTTP 429. -/
def count429 (outs : Nat → AttemptOutcome) : Nat → Nat → Nat
  | _, 0 => 0
  | i, k + 1 =>
    (if outs i = AttemptOutcome.response 429 then 1 else 0) + count429 outs (i + 1) k


/-! ### Claims C10, C4, C8 : `_make_request` -/

theorem makeRequestAux_step_200 (outs : Nat → AttemptOutcome) (uas : Nat → String)
    (fuel i : Nat) (h : Headers) (houts : outs i = AttemptOutcome.response 200) :
    makeRequestAux outs uas (fuel + 1) i h =
      (some 200, { h with userAgent := uas i },
        (if 0 < i then [FetchEvent.retrySleep] else []) ++
          [FetchEvent.attempt i { h with userAgent := uas i }]) := by
  simp only [makeRequestAux, houts]
  rfl

theorem makeRequestAux_step_403 (outs : Nat → AttemptOutcome) (uas : Nat → String)
    (fuel i : Nat) (h : Headers) (houts : outs i = AttemptOutcome.response 403) :
    makeRequestAux outs uas (fuel + 1) i h =
      ((makeRequestAux outs uas fuel (i + 1) (handle403Error { h with userAgent := uas i })).1,
       (makeRequestAux outs uas fuel (i + 1) (handle403Error { h with userAgent := uas i })).2.1,
       (if 0 < i then [FetchEvent.retrySleep] else []) ++
         FetchEvent.attempt i { h with userAgent := uas i } ::
           (makeRequestAux outs uas fuel (i + 1)
             (handle403Error { h with userAgent := uas i })).2.2) := by
  simp only [makeRequestAux, houts]
  rfl

theorem makeRequestAux_step_429 (outs : Nat → AttemptOutcome) (uas : Nat → String)
    (fuel i : Nat) (h : Headers) (houts : outs i = AttemptOutcome.response 429) :
    makeRequestAux outs uas (fuel + 1) i h =
      ((makeRequestAux outs uas fuel (i + 1) { h with userAgent := uas i }).1,
       (makeRequestAux outs uas fuel (i + 1) { h with userAgent := uas i }).2.1,
       (if 0 < i then [FetchEvent.retrySleep] else []) ++
         FetchEvent.attempt i { h with userAgent := uas i } ::
           FetchEvent.rateLimitSleep ::
             (makeRequestAux outs uas fuel (i + 1) { h with userAgent := uas i }).2.2) := by
  simp only [makeRequestAux, houts]
  rfl

theorem makeRequestAux_step_other (outs : Nat → AttemptOutcome) (uas : Nat → String)
    (fuel i : Nat) (h : Headers) (s : Nat) (houts : outs i = AttemptOutcome.response s)
    (h200 : s ≠ 200) (h403 : s ≠ 403) (h429 : s ≠ 429) :
    makeRequestAux outs uas (fuel + 1) i h =
      ((makeRequestAux outs uas fuel (i + 1) { h with userAgent := uas i }).1,
       (makeRequestAux outs uas fuel (i + 1) { h with userAgent := uas i }).2.1,
       (if 0 < i then [FetchEvent.retrySleep] else []) ++
         FetchEvent.attempt i { h with userAgent := uas i } ::
           (makeRequestAux outs uas fuel (i + 1) { h with userAgent := uas i }).2.2) := by
  simp only [makeRequestAux, houts, if_neg h200, if_neg h403, if_neg h429]

theorem makeRequestAux_step_error (outs : Nat → AttemptOutcome) (uas : Nat → String)
    (fuel i : Nat) (h : Headers) (houts : outs i = AttemptOutcome.requestError) :
    makeRequestAux outs uas (fuel + 1) i h =
      ((makeRequestAux outs uas fuel (i + 1) { h with userAgent := uas i }).1,
       (makeRequestAux outs uas fuel (i + 1) { h with userAgent := uas i }).2.1,
       (if 0 < i then [FetchEvent.retrySleep] else []) ++
         FetchEvent.attempt i { h with userAgent := uas i } ::
           (makeRequestAux outs uas fuel (i + 1) { h with userAgent := uas i }).2.2) := by
  simp only [makeRequestAux, houts]

theorem makeRequestAux_result (outs : Nat → AttemptOutcome) (uas : Nat → String) :
    ∀ (fuel i : Nat) (h : Headers),
      (makeRequestAux outs uas fuel i h).1 = none ∨
      (makeRequestAux outs uas fuel i h).1 = some 200 := by
  intro fuel
  induction fuel with
  | zero => intro i h; left; rfl
  | succ fuel ih =>
    intro i h
    cases houts : outs i with
    | response s =>
      by_cases h200 : s = 200
      · subst h200
        rw [makeRequestAux_step_200 outs uas fuel i h houts]
        right; rfl
      · by_cases h403 : s = 403
        · subst h403
          rw [makeRequestAux_step_403 outs uas fuel i h houts]
          exact ih (i + 1) (handle403Error { h with userAgent := uas i })
        · by_cases h429 : s = 429
          · subst h429
            rw [makeRequestAux_step_429 outs uas fuel i h houts]
            exact ih (i + 1) { h with userAgent := uas i }
          · rw [makeRequestAux_step_other outs uas fuel i h s houts h200 h403 h429]
            exact ih (i + 1) { h with userAgent := uas i }
    | requestError =>
      rw [makeRequestAux_step_error outs uas fuel i h houts]
      exact ih (i + 1) { h with userAgent := uas i }

/-- C10.  For every environment and retry limit, `_make_request` hands its
caller either `None` or a response whose status code is exactly 200
(responses are represented by their status code); a 403, 429 or other
non-200 response is never returned. -/
theorem claim_C10_theorem (outs : Nat → AttemptOutcome) (uas : Nat → String) (n : Nat) :
    makeRequest outs uas n = none ∨ makeRequest outs uas n = some 200 :=
  makeRequestAux_result outs uas n 0 defaultHeaders

theorem countAttempts_pre_attempt (i j : Nat) (hh : Headers) (tail : List FetchEvent) :
    countAttempts ((if 0 < i then [FetchEvent.retrySleep] else []) ++
      FetchEvent.attempt j hh :: tail) = countAttempts tail + 1 := by
  by_cases hi : 0 < i <;>
    simp [hi, countAttempts, List.countP_append, List.countP_cons, isAttemptEvent]

theorem countRetrySleeps_pre_attempt (i j : Nat) (hh : Headers) (tail : List FetchEvent) :
    countRetrySleeps ((if 0 < i then [FetchEvent.retrySleep] else []) ++
      FetchEvent.attempt j hh :: tail) =
    (if 0 < i then 1 else 0) + countRetrySleeps tail := by
  by_cases hi : 0 < i <;>
    simp [hi, countRetrySleeps, List.countP_append, List.countP_cons, isRetrySleep,
      Nat.add_comm]

theorem countRateLimitSleeps_pre_attempt (i j : Nat) (hh : Headers) (tail : List FetchEvent) :
    countRateLimitSleeps ((if 0 < i then [FetchEvent.retrySleep] else []) ++
      FetchEvent.attempt j hh :: tail) = countRateLimitSleeps tail := by
  by_cases hi : 0 < i <;>
    simp [hi, countRateLimitSleeps, List.countP_append, List.countP_cons, isRateLimitSleep]

theorem countAttempts_rateCons (tail : List FetchEvent) :
    countAttempts (FetchEvent.rateLimitSleep :: tail) = countAttempts tail := by
  simp [countAttempts, List.countP_cons, isAttemptEvent]

theorem countRetrySleeps_rateCons (tail : List FetchEvent) :
    countRetrySleeps (FetchEvent.rateLimitSleep :: tail) = countRetrySleeps tail := by
  simp [countRetrySleeps, List.countP_cons, isRetrySleep]

theorem countRateLimitSleeps_rateCons (tail : List FetchEvent) :
    countRateLimitSleeps (FetchEvent.rateLimitSleep :: tail) =
      countRateLimitSleeps tail + 1 := by
  simp [countRateLimitSleeps, List.countP_cons, isRateLimitSleep]

theorem count429_succ (outs : Nat → AttemptOutcome) (i k : Nat) :
    count429 outs i (k + 1) =
      (if outs i = AttemptOutcome.response 429 then 1 else 0) + count429 outs (i + 1) k := rfl

theorem makeRequestAux_trace (outs : Nat → AttemptOutcome) (uas : Nat → String) :
    ∀ (fuel i : Nat) (h : Headers),
      countAttempts (makeRequestAux outs uas fuel i h).2.2 ≤ fuel ∧
      countRetrySleeps (makeRequestAux outs uas fuel i h).2.2 =
        (if 0 < i then countAttempts (makeRequestAux outs uas fuel i h).2.2
         else countAttempts (makeRequestAux outs uas fuel i h).2.2 - 1) ∧
      countRateLimitSleeps (makeRequestAux outs uas fuel i h).2.2 =
        count429 outs i (countAttempts (makeRequestAux outs uas fuel i h).2.2) ∧
      ((∀ k, k < fuel → outs (i + k) ≠ AttemptOutcome.response 200) →
        (makeRequestAux outs uas fuel i h).1 = none) := by
  intro fuel
  induction fuel with
  | zero =>
    intro i h
    refine ⟨Nat.le_refl 0, ?_, rfl, fun _ => rfl⟩
    show (0 : Nat) = if 0 < i then 0 else 0 - 1
    split_ifs <;> rfl
  | succ fuel ih =>
    intro i h
    cases houts : outs i with
    | response s =>
      by_cases h200 : s = 200
      · subst h200
        rw [makeRequestAux_step_200 outs uas fuel i h houts]
        refine ⟨?_, ?_, ?_, ?_⟩
        · rw [show ([FetchEvent.attempt i { h with userAgent := uas i }] :
              List FetchEvent) = FetchEvent.attempt i { h with userAgent := uas i } :: [] from rfl,
            countAttempts_pre_attempt]
          simp [countAttempts]
        · rw [show ([FetchEvent.attempt i { h with userAgent := uas i }] :
              List FetchEvent) = FetchEvent.attempt i { h with userAgent := uas i } :: [] from rfl,
            countAttempts_pre_attempt, countRetrySleeps_pre_attempt]
          have : countAttempts ([] : List FetchEvent) = 0 := rfl
          have hr : countRetrySleeps ([] : List FetchEvent) = 0 := rfl
          rw [this, hr]
          split_ifs <;> rfl
        · rw [show ([FetchEvent.attempt i { h with userAgent := uas i }] :
              List FetchEvent) = FetchEvent.attempt i { h with userAgent := uas i } :: [] from rfl,
            countAttempts_pre_attempt, countRateLimitSleeps_pre_attempt]
          have h0 : countAttempts ([] : List FetchEvent) = 0 := rfl
          have hl : countRateLimitSleeps ([] : List FetchEvent) = 0 := rfl
          rw [h0, hl, count429_succ, if_neg (by simp [houts])]
          rfl
        · intro hfail
          exact absurd houts (by simpa using hfail 0 (Nat.succ_pos fuel))
      · have hshift : (∀ k, k < fuel + 1 → outs (i + k) ≠ AttemptOutcome.response 200) →
            (∀ k, k < fuel → outs (i + 1 + k) ≠ AttemptOutcome.response 200) := by
          intro hfail k hk
          have := hfail (k + 1) (Nat.succ_lt_succ hk)
          simpa [Nat.add_comm, Nat.add_left_comm, Nat.add_assoc] using this
        by_cases h403 : s = 403
        · subst h403
          rw [makeRequestAux_step_403 outs uas fuel i h houts]
          obtain ⟨hA, hRetry, hRate, hFail⟩ :=
            ih (i + 1) (handle403Error { h with userAgent := uas i })
          rw [if_pos (Nat.succ_pos i)] at hRetry
          refine ⟨?_, ?_, ?_, fun hfail => hFail (hshift hfail)⟩
          · rw [countAttempts_pre_attempt]
            exact Nat.succ_le_succ hA
          · rw [countAttempts_pre_attempt, countRetrySleeps_pre_attempt, hRetry]
            split_ifs <;> omega
          · rw [countAttempts_pre_attempt, countRateLimitSleeps_pre_attempt, hRate,
              count429_succ, if_neg (by simp [houts])]
            omega
        · by_cases h429 : s = 429
          · subst h429
            rw [makeRequestAux_step_429 outs uas fuel i h houts]
            obtain ⟨hA, hRetry, hRate, hFail⟩ := ih (i + 1) { h with userAgent := uas i }
            rw [if_pos (Nat.succ_pos i)] at hRetry
            refine ⟨?_, ?_, ?_, fun hfail => hFail (hshift hfail)⟩
            · rw [show ∀ tail, FetchEvent.rateLimitSleep :: tail = (FetchEvent.rateLimitSleep :: tail) from fun _ => rfl]
              rw [countAttempts_pre_attempt, countAttempts_rateCons]
              exact Nat.succ_le_succ hA
            · rw [countAttempts_pre_attempt, countAttempts_rateCons,
                countRetrySleeps_pre_attempt, countRetrySleeps_rateCons, hRetry]
              split_ifs <;> omega
            · rw [countAttempts_pre_attempt, countAttempts_rateCons,
                countRateLimitSleeps_pre_attempt, countRateLimitSleeps_rateCons, hRate,
                count429_succ, if_pos houts]
              omega
          · rw [makeRequestAux_step_other outs uas fuel i h s houts h200 h403 h429]
            obtain ⟨hA, hRetry, hRate, hFail⟩ := ih (i + 1) { h with userAgent := uas i }
            rw [if_pos (Nat.succ_pos i)] at hRetry
            refine ⟨?_, ?_, ?_, fun hfail => hFail (hshift hfail)⟩
            · rw [countAttempts_pre_attempt]
              exact Nat.succ_le_succ hA
            · rw [countAttempts_pre_attempt, countRetrySleeps_pre_attempt, hRetry]
              split_ifs <;> omega
            · rw [countAttempts_pre_attempt, countRateLimitSleeps_pre_attempt, hRate,
                count429_succ, if_neg (by simp [houts, h429])]
              omega
    | requestError =>
      rw [makeRequestAux_step_error outs uas fuel i h houts]
      obtain ⟨hA, hRetry, hRate, hFail⟩ := ih (i + 1) { h with userAgent := uas i }
      rw [if_pos (Nat.succ_pos i)] at hRetry
      have hshift : (∀ k, k < fuel + 1 → outs (i + k) ≠ AttemptOutcome.response 200) →
          (∀ k, k < fuel → outs (i + 1 + k) ≠ AttemptOutcome.response 200) := by
        intro hfail k hk
        have := hfail (k + 1) (Nat.succ_lt_succ hk)
        simpa [Nat.add_comm, Nat.add_left_comm, Nat.add_assoc] using this
      refine ⟨?_, ?_, ?_, fun hfail => hFail (hshift hfail)⟩
      · rw [countAttempts_pre_attempt]
        exact Nat.succ_le_succ hA
      · rw [countAttempts_pre_attempt, countRetrySleeps_pre_attempt, hRetry]
        split_ifs <;> omega
      · rw [countAttempts_pre_attempt, countRateLimitSleeps_pre_attempt, hRate,
          count429_succ, if_neg (by simp [houts])]
        omega

def outsAllError : Nat → AttemptOutcome := fun _ => AttemptOutcome.requestError

def outsAll403 : Nat → AttemptOutcome := fun _ => AttemptOutcome.response 403

def uaFixed : Nat → String := fun _ => defaultHeaders.userAgent

/-- C4, counterexample.  The claim says `_make_request` returns a typed
failure value distinguishing `Timeout`/`NetworkError` (a request exception on
every attempt) from `Denied` (a 403 on every attempt).  The code returns the
same untyped `None` in both situations, so the two failure modes are
indistinguishable to the caller. -/
theorem claim_C4_counterexample :
    makeRequest outsAllError uaFixed 3 = makeRequest outsAll403 uaFixed 3 ∧
    makeRequest outsAllError uaFixed 3 = none := ⟨rfl, rfl⟩

/-- C4 (amended).  `_make_request` makes at most `max_retries` attempts; a
randomized 2-5 s sleep precedes every attempt after the first (so there are
`attempts - 1` such sleeps); an extra randomized 10-20 s sleep follows every
rate-limited (HTTP 429) attempt; and when no attempt yields a 200 response it
returns the untyped failure `None` — not a typed failure value — rather than
raising. -/
theorem claim_C4_theorem (outs : Nat → AttemptOutcome) (uas : Nat → String) (n : Nat) :
    countAttempts (makeRequestFull outs uas n defaultHeaders).2.2 ≤ n ∧
    countRetrySleeps (makeRequestFull outs uas n defaultHeaders).2.2 =
      countAttempts (makeRequestFull outs uas n defaultHeaders).2.2 - 1 ∧
    countRateLimitSleeps (makeRequestFull outs uas n defaultHeaders).2.2 =
      count429 outs 0 (countAttempts (makeRequestFull outs uas n defaultHeaders).2.2) ∧
    ((∀ k, k < n → outs k ≠ AttemptOutcome.response 200) →
      makeRequest outs uas n = none) := by
  obtain ⟨hA, hRetry, hRate, hFail⟩ := makeRequestAux_trace outs uas n 0 defaultHeaders
  refine ⟨hA, ?_, hRate, fun hfail => hFail (fun k hk => by simpa using hfail k hk)⟩
  simpa using hRetry

/-- C4, witness: with three rate-limited attempts, exactly 3 attempts are
made, 2 retry sleeps and 3 rate-limit sleeps occur, and the result is
`None`. -/
theorem claim_C4_witness :
    countAttempts (makeRequestFull (fun _ => AttemptOutcome.response 429) uaFixed 3
      defaultHeaders).2.2 ≤ 3 ∧
    makeRequest (fun _ => AttemptOutcome.response 429) uaFixed 3 = none := by
  obtain ⟨hA, _, _, hFail⟩ :=
    claim_C4_theorem (fun _ => AttemptOutcome.response 429) uaFixed 3
  exact ⟨hA, hFail (fun k _ => by simp)⟩

/-- The header keys `_handle_403_error` installs, all present with the
values the code writes. -/
def augmented (h : Headers) : Prop :=
  h.referer = some "https://www.google.com/" ∧
  h.secChUa = some "\"Not_A Brand\";v=\"8\", \"Chromium\";v=\"120\", \"Google Chrome\";v=\"120\"" ∧
  h.secChUaMobile = some "?0" ∧
  h.secChUaPlatform = some "\"Windows\""

instance (h : Headers) : Decidable (augmented h) := by
  unfold augmented
  infer_instance

theorem augmented_handle403 (h : Headers) : augmented (handle403Error h) :=
  ⟨rfl, rfl, rfl, rfl⟩

theorem augmented_setUA (h : Headers) (u : String) (ha : augmented h) :
    augmented { h with userAgent := u } := ha

theorem makeRequestAux_attempt_ge (outs : Nat → AttemptOutcome) (uas : Nat → String) :
    ∀ (fuel i : Nat) (h : Headers) (j : Nat) (hj : Headers),
      FetchEvent.attempt j hj ∈ (makeRequestAux outs uas fuel i h).2.2 → i ≤ j := by
  intro fuel
  induction fuel with
  | zero => intro i h j hj hmem; exact absurd hmem (List.not_mem_nil _)
  | succ fuel ih =>
    intro i h j hj hmem
    have hsplit : ∀ tail : List FetchEvent,
        FetchEvent.attempt j hj ∈
          ((if 0 < i then [FetchEvent.retrySleep] else []) ++
            FetchEvent.attempt i { h with userAgent := uas i } :: tail) →
        j = i ∨ FetchEvent.attempt j hj ∈ tail := by
      intro tail hm
      rcases List.mem_append.mp hm with hp | hc
      · exfalso
        by_cases hi : 0 < i
        · rw [if_pos hi] at hp
          cases List.mem_singleton.mp hp
        · rw [if_neg hi] at hp
          exact List.not_mem_nil _ hp
      · rcases List.mem_cons.mp hc with he | ht
        · left; injection he
        · right; exact ht
    cases houts : outs i with
    | response s =>
      by_cases h200 : s = 200
      · subst h200
        rw [makeRequestAux_step_200 outs uas fuel i h houts] at hmem
        rcases hsplit [] hmem with rfl | habs
        · exact Nat.le_refl j
        · exact absurd habs (List.not_mem_nil _)
      · by_cases h403 : s = 403
        · subst h403
          rw [makeRequestAux_step_403 outs uas fuel i h houts] at hmem
          rcases hsplit _ hmem with rfl | ht
          · exact Nat.le_refl j
          · exact Nat.le_of_succ_le (ih (i + 1) _ j hj ht)
        · by_cases h429 : s = 429
          · subst h429
            rw [makeRequestAux_step_429 outs uas fuel i h houts] at hmem
            rcases hsplit _ hmem with rfl | ht
            · exact Nat.le_refl j
            · rcases List.mem_cons.mp ht with he | ht2
              · exact absurd he (by simp)
              · exact Nat.le_of_succ_le (ih (i + 1) _ j hj ht2)
          · rw [makeRequestAux_step_other outs uas fuel i h s houts h200 h403 h429] at hmem
            rcases hsplit _ hmem with rfl | ht
            · exact Nat.le_refl j
            · exact Nat.le_of_succ_le (ih (i + 1) _ j hj ht)
    | requestError =>
      rw [makeRequestAux_step_error outs uas fuel i h houts] at hmem
      rcases hsplit _ hmem with rfl | ht
      · exact Nat.le_refl j
      · exact Nat.le_of_succ_le (ih (i + 1) _ j hj ht)

theorem makeRequestAux_aug (outs : Nat → AttemptOutcome) (uas : Nat → String) :
    ∀ (fuel i : Nat) (h : Headers),
      (augmented h →
        augmented (makeRequestAux outs uas fuel i h).2.1 ∧
        ∀ j hj, FetchEvent.attempt j hj ∈ (makeRequestAux outs uas fuel i h).2.2 →
          augmented hj) ∧
      (∀ j hj, FetchEvent.attempt j hj ∈ (makeRequestAux outs uas fuel i h).2.2 →
        outs j = AttemptOutcome.response 403 →
        augmented (makeRequestAux outs uas fuel i h).2.1 ∧
        ∀ k hk, FetchEvent.attempt k hk ∈ (makeRequestAux outs uas fuel i h).2.2 →
          j < k → augmented hk) := by
  intro fuel
  induction fuel with
  | zero =>
    intro i h
    exact ⟨fun ha => ⟨ha, fun j hj hmem => absurd hmem (List.not_mem_nil _)⟩,
      fun j hj hmem => absurd hmem (List.not_mem_nil _)⟩
  | succ fuel ih =>
    intro i h
    have hsplit : ∀ (mid tail : List FetchEvent) (j : Nat) (hj : Headers),
        (∀ e ∈ mid, isAttemptEvent e = false) →
        FetchEvent.attempt j hj ∈
          ((if 0 < i then [FetchEvent.retrySleep] else []) ++
            FetchEvent.attempt i { h with userAgent := uas i } :: (mid ++ tail)) →
        (j = i ∧ hj = { h with userAgent := uas i }) ∨ FetchEvent.attempt j hj ∈ tail := by
      intro mid tail j hj hmid hm
      rcases List.mem_append.mp hm with hp | hc
      · exfalso
        by_cases hi : 0 < i
        · rw [if_pos hi] at hp
          cases List.mem_singleton.mp hp
        · rw [if_neg hi] at hp
          exact List.not_mem_nil _ hp
      · rcases List.mem_cons.mp hc with he | ht
        · left
          constructor
          · injection he
          · injection he
        · rcases List.mem_append.mp ht with hm2 | ht2
          · exact absurd (hmid _ hm2) (by simp [isAttemptEvent])
          · right; exact ht2
    cases houts : outs i with
    | response s =>
      by_cases h200 : s = 200
      · subst h200
        rw [makeRequestAux_step_200 outs uas fuel i h houts]
        constructor
        · intro ha
          refine ⟨augmented_setUA h (uas i) ha, fun j hj hmem => ?_⟩
          rcases hsplit [] [] j hj (by intro e he; cases he)
              (by simpa using hmem) with ⟨hj1, hj2⟩ | habs
          · rw [hj2]
            exact augmented_setUA h (uas i) ha
          · exact absurd habs (List.not_mem_nil _)
        · intro j hj hmem h403j
          rcases hsplit [] [] j hj (by intro e he; cases he)
              (by simpa using hmem) with ⟨hj1, hj2⟩ | habs
          · rw [hj1, houts] at h403j
            exact absurd h403j (by decide)
          · exact absurd habs (List.not_mem_nil _)
      · by_cases h403 : s = 403
        · subst h403
          rw [makeRequestAux_step_403 outs uas fuel i h houts]
          have ihx := ih (i + 1) (handle403Error { h with userAgent := uas i })
          have haug := augmented_handle403 { h with userAgent := uas i }
          have hrec := ihx.1 haug
          constructor
          · intro ha
            refine ⟨hrec.1, fun j hj hmem => ?_⟩
            rcases hsplit [] _ j hj (by intro e he; cases he)
                (by simpa using hmem) with ⟨hj1, hj2⟩ | ht
            · rw [hj2]
              exact augmented_setUA h (uas i) ha
            · exact hrec.2 j hj ht
          · intro j hj hmem h403j
            refine ⟨hrec.1, fun k hk hmemk hjk => ?_⟩
            rcases hsplit [] _ k hk (by intro e he; cases he)
                (by simpa using hmemk) with ⟨hk1, hk2⟩ | ht
            · exfalso
              rcases hsplit [] _ j hj (by intro e he; cases he)
                  (by simpa using hmem) with ⟨hj1, _⟩ | htj
              · omega
              · have hge := makeRequestAux_attempt_ge outs uas fuel (i + 1) _ j hj htj
                omega
            · exact hrec.2 k hk ht
        · by_cases h429 : s = 429
          · subst h429
            rw [makeRequestAux_step_429 outs uas fuel i h houts]
            have ihx := ih (i + 1) { h with userAgent := uas i }
            constructor
            · intro ha
              have hrec := ihx.1 (augmented_setUA h (uas i) ha)
              refine ⟨hrec.1, fun j hj hmem => ?_⟩
              rcases hsplit [FetchEvent.rateLimitSleep] _ j hj
                  (by intro e he; rw [List.mem_singleton.mp he]; rfl)
                  (by simpa using hmem) with ⟨hj1, hj2⟩ | ht
              · rw [hj2]
                exact augmented_setUA h (uas i) ha
              · exact hrec.2 j hj ht
            · intro j hj hmem h403j
              rcases hsplit [FetchEvent.rateLimitSleep] _ j hj
                  (by intro e he; rw [List.mem_singleton.mp he]; rfl)
                  (by simpa using hmem) with ⟨hj1, hj2⟩ | ht
              · rw [hj1, houts] at h403j
                exact absurd h403j (by decide)
              · have hrec2 := ihx.2 j hj ht h403j
                refine ⟨hrec2.1, fun k hk hmemk hjk => ?_⟩
                rcases hsplit [FetchEvent.rateLimitSleep] _ k hk
                    (by intro e he; rw [List.mem_singleton.mp he]; rfl)
                    (by simpa using hmemk) with ⟨hk1, hk2⟩ | htk
                · exfalso
                  have hge := makeRequestAux_attempt_ge outs uas fuel (i + 1) _ j hj ht
                  omega
                · exact hrec2.2 k hk htk hjk
          · rw [makeRequestAux_step_other outs uas fuel i h s houts h200 h403 h429]
            have ihx := ih (i + 1) { h with userAgent := uas i }
            constructor
            · intro ha
              have hrec := ihx.1 (augmented_setUA h (uas i) ha)
              refine ⟨hrec.1, fun j hj hmem => ?_⟩
              rcases hsplit [] _ j hj (by intro e he; cases he)
                  (by simpa using hmem) with ⟨hj1, hj2⟩ | ht
              · rw [hj2]
                exact augmented_setUA h (uas i) ha
              · exact hrec.2 j hj ht
            · intro j hj hmem h403j
              rcases hsplit [] _ j hj (by intro e he; cases he)
                  (by simpa using hmem) with ⟨hj1, hj2⟩ | ht
              · rw [hj1, houts] at h403j
                injection h403j with hs
                exact absurd hs h403
              · have hrec2 := ihx.2 j hj ht h403j
                refine ⟨hrec2.1, fun k hk hmemk hjk => ?_⟩
                rcases hsplit [] _ k hk (by intro e he; cases he)
                    (by simpa using hmemk) with ⟨hk1, hk2⟩ | htk
                · exfalso
                  have hge := makeRequestAux_attempt_ge outs uas fuel (i + 1) _ j hj ht
                  omega
                · exact hrec2.2 k hk htk hjk
    | requestError =>
      rw [makeRequestAux_step_error outs uas fuel i h houts]
      have ihx := ih (i + 1) { h with userAgent := uas i }
      constructor
      · intro ha
        have hrec := ihx.1 (augmented_setUA h (uas i) ha)
        refine ⟨hrec.1, fun j hj hmem => ?_⟩
        rcases hsplit [] _ j hj (by intro e he; cases he)
            (by simpa using hmem) with ⟨hj1, hj2⟩ | ht
        · rw [hj2]
          exact augmented_setUA h (uas i) ha
        · exact hrec.2 j hj ht
      · intro j hj hmem h403j
        rcases hsplit [] _ j hj (by intro e he; cases he)
            (by simpa using hmem) with ⟨hj1, hj2⟩ | ht
        · rw [hj1, houts] at h403j
          exact absurd h403j (by decide)
        · have hrec2 := ihx.2 j hj ht h403j
          refine ⟨hrec2.1, fun k hk hmemk hjk => ?_⟩
          rcases hsplit [] _ k hk (by intro e he; cases he)
              (by simpa using hmemk) with ⟨hk1, hk2⟩ | htk
          · exfalso
            have hge := makeRequestAux_attempt_ge outs uas fuel (i + 1) _ j hj ht
            omega
          · exact hrec2.2 k hk htk hjk

def outs403then200 : Nat → AttemptOutcome := fun i =>
  if i = 0 then AttemptOutcome.response 403 else AttemptOutcome.response 200

/-- C8, counterexample.  After a 403 on the first attempt and a 200 on the
second, the call returns successfully — yet the session header state observed
after the call contains the referrer installed by `_handle_403_error`,
whereas it contained none before the 403.  The frame condition "header state
after the fetch call returns is unchanged" is therefore false. -/
theorem claim_C8_counterexample :
    defaultHeaders.referer = none ∧
    (makeRequestFull outs403then200 uaFixed 3 defaultHeaders).1 = some 200 ∧
    (makeRequestFull outs403then200 uaFixed 3 defaultHeaders).2.1.referer =
      some "https://www.google.com/" := ⟨rfl, rfl, rfl⟩

/-- C8 (amended).  `_handle_403_error` mutates the session's header state in
place, so the referrer and client-hint headers added after a 403 are not
scoped to the next attempt only: every subsequent attempt is issued with
them, and they are still present in the session's header state after the
fetch call returns. -/
theorem claim_C8_theorem (outs : Nat → AttemptOutcome) (uas : Nat → String)
    (n j : Nat) (hj : Headers)
    (hmem : FetchEvent.attempt j hj ∈ (makeRequestFull outs uas n defaultHeaders).2.2)
    (h403 : outs j = AttemptOutcome.response 403) :
    augmented (makeRequestFull outs uas n defaultHeaders).2.1 ∧
    ∀ k hk, FetchEvent.attempt k hk ∈ (makeRequestFull outs uas n defaultHeaders).2.2 →
      j < k → augmented hk :=
  (makeRequestAux_aug outs uas n 0 defaultHeaders).2 j hj hmem h403

/-- C8, witness: in the 403-then-200 run, the theorem applies at attempt 0
and yields the augmented final header state. -/
theorem claim_C8_witness :
    augmented (makeRequestFull outs403then200 uaFixed 3 defaultHeaders).2.1 :=
  (claim_C8_theorem outs403then200 uaFixed 3 0 defaultHeaders
    (by decide) (by decide)).1

/-! ### Embedding of `MyFundedFuturesScraper` (src/scrapers/scraper_myfundedfuture.py)

`scrape` (lines 27-61) fetches the main page; on a non-200 status, or on any
exception, it returns `_get_fallback_plans()`.  On success it builds one
`TradingPlan` per extracted plan dict; if none were extracted it also falls
back.  `_extract_business_name` returns the constant `"My Funded Futures"`
on every path, `_extract_trustpilot_score` returns `"4.3"` when no rating is
found in the page, and `_extract_discount_code` returns
`"Contact for codes"` when no pattern matches; the page's extraction results
are modelled as the optional found values plus the list of plan dicts. -/

namespace MFF

structure TradingPlan where
  business_name : String
  account_size : String
  sale_price : String
  funded_full_price : String
  discount_code : String
  trial_type : String
  trustpilot_score : String
  profit_goal : String
deriving DecidableEq, Repr

/-- One dict produced by `_extract_plan_details`; a missing key is modelled
as the empty string (the `plan_data.get(key, '')` reads make the two
indistinguishable here). -/
structure PlanData where
  account_size : String
  sale_price : String
  profit_goal : String
  trial_type : String
  funded_full_price : String
deriving DecidableEq, Repr

/-- Outcome of the single `requests.get` plus page parsing in `scrape`. -/
inductive FetchOutcome where
  | non200
  | exn
  | ok (trustpilotFound : Option String) (discountFound : Option String)
      (plans : List PlanData)

/-- `_get_fallback_plans` (lines 204-230), verbatim. -/
def fallbackPlans : List TradingPlan :=
  [ ⟨"My Funded Futures", "$50K", "$127/Month", "", "Contact for codes",
      "Starter Plus", "4.3", "$3,000"⟩
  , ⟨"My Funded Futures", "$100K", "$267/Month", "", "Contact for codes",
      "Expert", "4.3", "$6,000"⟩
  , ⟨"My Funded Futures", "$150K", "$377/Month", "", "Contact for codes",
      "Eval To Live", "4.3", "$9,000"⟩
  , ⟨"My Funded Futures", "$25K", "$97/Month", "", "Contact for codes",
      "Starter Plus", "4.3", "$1,500"⟩
  , ⟨"My Funded Futures", "$200K", "$497/Month", "", "Contact for codes",
      "Expert", "4.3", "$12,000"⟩ ]

def mkPlan (tp dc : String) (d : PlanData) : TradingPlan :=
  { business_name := "My Funded Futures"
  , account_size := d.account_size
  , sale_price := d.sale_price
  , funded_full_price := d.funded_full_price
  , discount_code := dc
  , trial_type := d.trial_type
  , trustpilot_score := tp
  , profit_goal := d.profit_goal }

/-- `MyFundedFuturesScraper.scrape` (lines 27-61). -/
def scrape : FetchOutcome → List TradingPlan
  | FetchOutcome.non200 => fallbackPlans
  | FetchOutcome.exn => fallbackPlans
  | FetchOutcome.ok tpF dcF ds =>
    let plans := ds.map (mkPlan (tpF.getD "4.3") (dcF.getD "Contact for codes"))
    if plans.isEmpty then fallbackPlans else plans

end MFF

/-! ### Embedding of `ApexTraderFundingScraper` (src/scrapers/scraper_apex.py)

`TradingPlan` is the dataclass of lines 12-22 plus `extra`, the dynamic
attributes that `_merge_plan_data`'s `setattr(plan, key, value)` creates for
extraction-dict keys that are not dataclass fields — Python stores them on
the instance, where only the `getattr` in later merges ever reads them.

`Candidate` is one dict from `_extract_plan_from_pricing_item`: the keys
that are dataclass fields (a key the extractor did not set is modelled as
the empty string, which the `dict.get(key, '')` reads and the merge's
falsy-value test make equivalent, except for `trial_type`, whose absence the
code distinguishes — see `newPlanOf`), plus the remaining keys as an
association list. -/

namespace Apex

structure Candidate where
  account_size : String
  trial_type : String
  sale_price : String
  funded_full_price : String
  profit_goal : String
  extras : List (String × String)
deriving DecidableEq, Repr

structure TradingPlan where
  business_name : String
  account_size : String
  sale_price : String
  funded_full_price : String
  discount_code : String
  trial_type : String
  trustpilot_score : String
  profit_goal : String
  additional_info : Candidate
  extra : List (String × String)
deriving DecidableEq, Repr

/-- `getattr(plan, key, None)` for a non-dataclass key. -/
def extraGet (l : List (String × String)) (k : String) : Option String :=
  (l.find? (fun kv => decide (kv.1 = k))).map (fun kv => kv.2)

/-- `setattr(plan, key, value)` for a non-dataclass key. -/
def extraSet (l : List (String × String)) (k v : String) : List (String × String) :=
  if (l.find? (fun kv => decide (kv.1 = k))).isSome then
    l.map (fun kv => if kv.1 = k then (k, v) else kv)
  else l ++ [(k, v)]

/-- The per-key update `if value and not getattr(plan, key, None):
setattr(...)` for a dataclass string field. -/
def updField (old new_ : String) : String :=
  if new_ ≠ "" ∧ old = "" then new_ else old

/-- `not getattr(plan, key, None)` for a non-dataclass key: the attribute is
absent, or holds a falsy value. -/
def extraEmptyAt (l : List (String × String)) (k : String) : Bool :=
  match extraGet l k with
  | none => true
  | some v => v == ""

/-- The merge loop's effect on the dynamic attributes. -/
def mergeExtras (l kvs : List (String × String)) : List (String × String) :=
  kvs.foldl
    (fun acc kv => if kv.2 != "" && extraEmptyAt acc kv.1 then extraSet acc kv.1 kv.2 else acc)
    l

/-- Apply `for key, value in new_plan_data.items(): ...` to a matched plan. -/
def applyCand (p : TradingPlan) (c : Candidate) : TradingPlan :=
  { p with
    account_size := updField p.account_size c.account_size
  , trial_type := updField p.trial_type c.trial_type
  , sale_price := updField p.sale_price c.sale_price
  , funded_full_price := updField p.funded_full_price c.funded_full_price
  , profit_goal := updField p.profit_goal c.profit_goal
  , extra := mergeExtras p.extra c.extras }

/-- The `TradingPlan(...)` constructed when no existing plan matches
(lines 484-495). -/
def newPlanOf (c : Candidate) : TradingPlan :=
  { business_name := "Apex Trader Funding"
  , account_size := c.account_size
  , sale_price := c.sale_price
  , funded_full_price := c.funded_full_price
  , discount_code := "Contact for codes"
  , trial_type := if c.trial_type = "" then "Account" else c.trial_type
  , trustpilot_score := "4.5"
  , profit_goal := c.profit_goal
  , additional_info := c
  , extra := [] }

/-- The match test of lines 475-476: same `account_size` and `trial_type`. -/
def matchesCand (p : TradingPlan) (c : Candidate) : Prop :=
  p.account_size = c.account_size ∧ p.trial_type = c.trial_type

instance (p : TradingPlan) (c : Candidate) : Decidable (matchesCand p c) := by
  unfold matchesCand
  infer_instance

/-- `_merge_plan_data` (lines 468-495): update the first plan matching on
(account size, trial type), else append a new plan at the end. -/
def mergePlanData : List TradingPlan → Candidate → List TradingPlan
  | [], c => [newPlanOf c]
  | p :: ps, c =>
    if matchesCand p c then applyCand p c :: ps
    else p :: mergePlanData ps c

/-- One additional extraction pass: `for plan_data in additional_plans:
self._merge_plan_data(plan_data)` (lines 458-460). -/
def mergeAllCands (plans : List TradingPlan) (cs : List Candidate) : List TradingPlan :=
  cs.foldl mergePlanData plans

/-- Modelled from the spec:  the claim's merge rule, in which two candidates
are the same logical plan exactly when they agree on (source identity, plan
name, account size, price) — the source is fixed inside one scraper, and the
plan name of a record is `f"{account_size} {trial_type}"` — and a candidate
matching no existing record on that identity is appended.  Used only to
compare with `mergePlanData`, which is the code's rule. -/
def mergeSpecRule : List TradingPlan → Candidate → List TradingPlan
  | [], c => [newPlanOf c]
  | p :: ps, c =>
    if p.account_size ++ " " ++ p.trial_type = c.account_size ++ " " ++ c.trial_type ∧
        p.account_size = c.account_size ∧ p.sale_price = c.sale_price then
      applyCand p c :: ps
    else p :: mergeSpecRule ps c

/-- The record fields of a plan (everything except the dynamic `extra`
attributes, which are not dataclass fields and are invisible to every
output path). -/
def core (p : TradingPlan) :
    String × String × String × String × String × String × String × String × Candidate :=
  (p.business_name, p.account_size, p.sale_price, p.funded_full_price,
   p.discount_code, p.trial_type, p.trustpilot_score, p.profit_goal,
   p.additional_info)

/-- `get_standardized_data` (lines 587-603): the dict built for one plan, as
an ordered key/value list. -/
def standardizedRecord (p : TradingPlan) : List (String × String) :=
  [ ("business_name", p.business_name)
  , ("plan_name", p.account_size ++ " " ++ p.trial_type)
  , ("account_size", p.account_size)
  , ("price_raw", p.sale_price)
  , ("funded_price", p.funded_full_price)
  , ("discount_code", p.discount_code)
  , ("trial_type", p.trial_type)
  , ("trustpilot_score", p.trustpilot_score)
  , ("profit_goal", p.profit_goal)
  , ("source", "Apex Trader Funding") ]

def get_standardized_data (plans : List TradingPlan) : List (List (String × String)) :=
  plans.map standardizedRecord

/-- The column set `get_standardized_data` actually produces. -/
def standardColumns : List String :=
  [ "business_name", "plan_name", "account_size", "price_raw", "funded_price"
  , "discount_code", "trial_type", "trustpilot_score", "profit_goal", "source" ]

/-- The fallback dicts of `_create_fallback_plans` (lines 283-342). -/
def apexFallbackData : List Candidate :=
  [ ⟨"$25K", "Full Account", "$147/Month", "", "$1,500",
      [("starting_capital", "$25,000"), ("contracts", "4(40 Micros)"),
       ("trailing_threshold", "$1,500")]⟩
  , ⟨"$50K", "Full Account", "$167/Month", "", "$3,000",
      [("starting_capital", "$50,000"), ("contracts", "10(100 Micros)"),
       ("trailing_threshold", "$2,500")]⟩
  , ⟨"$100K", "Full Account", "$207/Month", "", "$6,000",
      [("starting_capital", "$100,000"), ("contracts", "14(140 Micros)"),
       ("trailing_threshold", "$3,000")]⟩
  , ⟨"$150K", "Full Account", "$297/Month", "", "$9,000",
      [("starting_capital", "$150,000"), ("contracts", "17(170 Micros)"),
       ("trailing_threshold", "$5,000")]⟩
  , ⟨"$250K", "Full Account", "$399/Month", "", "$15,000",
      [("starting_capital", "$250,000"), ("contracts", "27(270 Micros)"),
       ("trailing_threshold", "$6,500")]⟩
  , ⟨"$100K", "Static Account", "$137/Month", "", "$2,000",
      [("starting_capital", "$100,000"), ("contracts", "2(20 Micros)"),
       ("trailing_threshold", "None"), ("daily_drawdown", "$625"),
       ("scaling", "None")]⟩ ]

/-- The `TradingPlan(...)` built from one fallback dict (lines 344-356). -/
def fallbackPlanOf (c : Candidate) : TradingPlan :=
  { business_name := "Apex Trader Funding"
  , account_size := c.account_size
  , sale_price := c.sale_price
  , funded_full_price := ""
  , discount_code := "Contact for codes"
  , trial_type := c.trial_type
  , trustpilot_score := "4.5"
  , profit_goal := c.profit_goal
  , additional_info := c
  , extra := [] }

/-- `_create_fallback_plans` (lines 279-359): appends the six fixed plans to
`self.plans` and returns the result. -/
def createFallbackPlans (plans : List TradingPlan) : List TradingPlan :=
  plans ++ apexFallbackData.map fallbackPlanOf

end Apex

/-! ### Claims C3 and C9 : the merge rule -/

namespace Apex

theorem applyCand_account_size (p : TradingPlan) (c : Candidate) :
    (applyCand p c).account_size = updField p.account_size c.account_size := rfl

theorem applyCand_trial_type (p : TradingPlan) (c : Candidate) :
    (applyCand p c).trial_type = updField p.trial_type c.trial_type := rfl

theorem applyCand_sale_price (p : TradingPlan) (c : Candidate) :
    (applyCand p c).sale_price = updField p.sale_price c.sale_price := rfl

theorem applyCand_funded (p : TradingPlan) (c : Candidate) :
    (applyCand p c).funded_full_price = updField p.funded_full_price c.funded_full_price := rfl

theorem applyCand_profit_goal (p : TradingPlan) (c : Candidate) :
    (applyCand p c).profit_goal = updField p.profit_goal c.profit_goal := rfl

theorem updField_absorbed (a b : String) (hab : b ≠ "" → a ≠ "") : updField a b = a := by
  unfold updField
  split_ifs with h
  · exact absurd h.2 (hab h.1)
  · rfl

theorem updField_self (a b : String) (hab : a = b) : updField a b = a := by
  apply updField_absorbed
  intro hb
  rw [hab]
  exact hb

theorem updField_keep (a b : String) (ha : a ≠ "") : updField a b = a :=
  updField_absorbed a b (fun _ => ha)

theorem updField_fill (a b : String) (ha : a = "") (hb : b ≠ "") : updField a b = b := by
  unfold updField
  rw [if_pos ⟨hb, ha⟩]

theorem updField_ne_of_new (a b : String) (hb : b ≠ "") : updField a b ≠ "" := by
  unfold updField
  split_ifs with h
  · exact hb
  · intro ha
    exact h ⟨hb, ha⟩

theorem updField_ne_of_old (a b : String) (ha : a ≠ "") : updField a b ≠ "" := by
  rw [updField_keep a b ha]
  exact ha

theorem mergePlanData_cons_pos (p : TradingPlan) (ps : List TradingPlan)
    (c : Candidate) (hm : matchesCand p c) :
    mergePlanData (p :: ps) c = applyCand p c :: ps := by
  simp [mergePlanData, hm]

theorem mergePlanData_cons_neg (p : TradingPlan) (ps : List TradingPlan)
    (c : Candidate) (hm : ¬ matchesCand p c) :
    mergePlanData (p :: ps) c = p :: mergePlanData ps c := by
  simp [mergePlanData, hm]

/-- After a merge of `c`, some plan matches `c` and already holds a non-empty
value in every field `c` fills; all plans before it fail the match test. -/
def absorbs (p : TradingPlan) (c : Candidate) : Prop :=
  (c.account_size ≠ "" → p.account_size ≠ "") ∧
  (c.trial_type ≠ "" → p.trial_type ≠ "") ∧
  (c.sale_price ≠ "" → p.sale_price ≠ "") ∧
  (c.funded_full_price ≠ "" → p.funded_full_price ≠ "") ∧
  (c.profit_goal ≠ "" → p.profit_goal ≠ "")

def covers : List TradingPlan → Candidate → Prop
  | [], _ => False
  | p :: ps, c => (matchesCand p c ∧ absorbs p c) ∨ (¬ matchesCand p c ∧ covers ps c)

theorem core_applyCand (p : TradingPlan) (c : Candidate) (hab : absorbs p c) :
    core (applyCand p c) = core p := by
  obtain ⟨a1, a2, a3, a4, a5⟩ := hab
  show (p.business_name, updField p.account_size c.account_size,
      updField p.sale_price c.sale_price,
      updField p.funded_full_price c.funded_full_price,
      p.discount_code, updField p.trial_type c.trial_type,
      p.trustpilot_score, updField p.profit_goal c.profit_goal,
      p.additional_info) = core p
  rw [updField_absorbed _ _ a1, updField_absorbed _ _ a2, updField_absorbed _ _ a3,
    updField_absorbed _ _ a4, updField_absorbed _ _ a5]
  rfl

theorem mergePlanData_covers_core (c : Candidate) :
    ∀ plans, covers plans c → (mergePlanData plans c).map core = plans.map core := by
  intro plans
  induction plans with
  | nil => intro h; exact h.elim
  | cons p ps ih =>
    intro hcov
    rcases hcov with ⟨hm, hab⟩ | ⟨hnm, hcov2⟩
    · rw [mergePlanData_cons_pos p ps c hm, List.map_cons, List.map_cons,
        core_applyCand p c hab]
    · rw [mergePlanData_cons_neg p ps c hnm, List.map_cons, List.map_cons, ih hcov2]

theorem covers_mergePlanData_self (c : Candidate) (hct : c.trial_type ≠ "") :
    ∀ plans, covers (mergePlanData plans c) c := by
  intro plans
  induction plans with
  | nil =>
    refine Or.inl ⟨⟨rfl, ?_⟩, fun h => h, fun _ => ?_, fun h => h, fun h => h, fun h => h⟩
    · show (if c.trial_type = "" then "Account" else c.trial_type) = c.trial_type
      rw [if_neg hct]
    · show (if c.trial_type = "" then "Account" else c.trial_type) ≠ ""
      rw [if_neg hct]
      exact hct
  | cons p ps ih =>
    by_cases hm : matchesCand p c
    · rw [mergePlanData_cons_pos p ps c hm]
      refine Or.inl ⟨⟨?_, ?_⟩, fun h => ?_, fun h => ?_, fun h => ?_, fun h => ?_,
        fun h => ?_⟩
      · rw [applyCand_account_size, updField_self _ _ hm.1]
        exact hm.1
      · rw [applyCand_trial_type, updField_self _ _ hm.2]
        exact hm.2
      · rw [applyCand_account_size]
        exact updField_ne_of_new _ _ h
      · rw [applyCand_trial_type]
        exact updField_ne_of_new _ _ h
      · rw [applyCand_sale_price]
        exact updField_ne_of_new _ _ h
      · rw [applyCand_funded]
        exact updField_ne_of_new _ _ h
      · rw [applyCand_profit_goal]
        exact updField_ne_of_new _ _ h
    · rw [mergePlanData_cons_neg p ps c hm]
      exact Or.inr ⟨hm, ih⟩

theorem matchesCand_applyCand (p : TradingPlan) (c c2 : Candidate)
    (hm : matchesCand p c) :
    (matchesCand (applyCand p c) c2 ↔ matchesCand p c2) := by
  unfold matchesCand
  rw [applyCand_account_size, applyCand_trial_type,
    updField_self _ _ hm.1, updField_self _ _ hm.2]

theorem covers_mono (c c2 : Candidate) :
    ∀ plans, covers plans c2 → covers (mergePlanData plans c) c2 := by
  intro plans
  induction plans with
  | nil => intro h; exact h.elim
  | cons p ps ih =>
    intro hcov
    by_cases hm : matchesCand p c
    · rw [mergePlanData_cons_pos p ps c hm]
      rcases hcov with ⟨hm2, hab2⟩ | ⟨hnm2, hcov2⟩
      · refine Or.inl ⟨(matchesCand_applyCand p c c2 hm).mpr hm2, ?_⟩
        obtain ⟨b1, b2, b3, b4, b5⟩ := hab2
        refine ⟨fun h => ?_, fun h => ?_, fun h => ?_, fun h => ?_, fun h => ?_⟩
        · rw [applyCand_account_size]
          exact updField_ne_of_old _ _ (b1 h)
        · rw [applyCand_trial_type]
          exact updField_ne_of_old _ _ (b2 h)
        · rw [applyCand_sale_price]
          exact updField_ne_of_old _ _ (b3 h)
        · rw [applyCand_funded]
          exact updField_ne_of_old _ _ (b4 h)
        · rw [applyCand_profit_goal]
          exact updField_ne_of_old _ _ (b5 h)
      · exact Or.inr ⟨fun h => hnm2 ((matchesCand_applyCand p c c2 hm).mp h), hcov2⟩
    · rw [mergePlanData_cons_neg p ps c hm]
      rcases hcov with ⟨hm2, hab2⟩ | ⟨hnm2, hcov2⟩
      · exact Or.inl ⟨hm2, hab2⟩
      · exact Or.inr ⟨hnm2, ih hcov2⟩

theorem covers_mergeAllCands (c2 : Candidate) :
    ∀ (cs : List Candidate) (plans : List TradingPlan),
      covers plans c2 → covers (mergeAllCands plans cs) c2 := by
  intro cs
  induction cs with
  | nil => intro plans h; exact h
  | cons c cs ih =>
    intro plans h
    exact ih (mergePlanData plans c) (covers_mono c c2 plans h)

theorem covers_after_pass :
    ∀ (cs : List Candidate), (∀ c ∈ cs, c.trial_type ≠ "") →
      ∀ (plans : List TradingPlan) (c : Candidate), c ∈ cs →
        covers (mergeAllCands plans cs) c := by
  intro cs
  induction cs with
  | nil => intro _ plans c hc; exact absurd hc (List.not_mem_nil c)
  | cons c0 cs ih =>
    intro hct plans c hc
    rcases List.mem_cons.mp hc with heq | hmem
    · subst heq
      exact covers_mergeAllCands c cs (mergePlanData plans c)
        (covers_mergePlanData_self c (hct c (List.mem_cons_self c cs)) plans)
    · exact ih (fun x hx => hct x (List.mem_cons_of_mem c0 hx))
        (mergePlanData plans c0) c hmem

theorem mergeAllCands_covered_core :
    ∀ (cs : List Candidate) (plans : List TradingPlan),
      (∀ c ∈ cs, covers plans c) →
      (mergeAllCands plans cs).map core = plans.map core := by
  intro cs
  induction cs with
  | nil => intro plans _; rfl
  | cons c cs ih =>
    intro plans h
    show (mergeAllCands (mergePlanData plans c) cs).map core = plans.map core
    have h1 : ∀ c2 ∈ cs, covers (mergePlanData plans c) c2 :=
      fun c2 hc2 => covers_mono c c2 plans (h c2 (List.mem_cons_of_mem c hc2))
    rw [ih (mergePlanData plans c) h1,
      mergePlanData_covers_core c plans (h c (List.mem_cons_self c cs))]

end Apex

/-! ### Claim C1 : fallback output and provenance -/

/-- An extraction result a live My Funded Futures page can yield: one pricing
card giving the $50K Starter Plus plan, with no Trustpilot element and no
discount-code pattern found (so the extractors return their defaults). -/
def mffLiveExample : MFF.PlanData :=
  ⟨"$50K", "$127/Month", "$3,000", "Starter Plus", ""⟩

/-- C1, counterexample.  The first fallback record returned when every fetch
fails is byte-for-byte identical to a record produced from a successful live
scrape: `TradingPlan` has no provenance field, so fallback records are not
distinguishable from live-scraped records. -/
theorem claim_C1_counterexample :
    (MFF.scrape MFF.FetchOutcome.non200).head? =
      some ⟨"My Funded Futures", "$50K", "$127/Month", "", "Contact for codes",
        "Starter Plus", "4.3", "$3,000"⟩ ∧
    (MFF.scrape (MFF.FetchOutcome.ok none none [mffLiveExample])).head? =
      some ⟨"My Funded Futures", "$50K", "$127/Month", "", "Contact for codes",
        "Starter Plus", "4.3", "$3,000"⟩ :=
  ⟨rfl, rfl⟩

/-- C1 (amended).  When every fetch attempt fails (non-200 status, or an
exception), the scraper's output is the non-empty static fallback plan set —
but the records carry no provenance flag: a fallback record can be identical
to a live-scraped record, so the two are not distinguishable. -/
theorem claim_C1_theorem :
    MFF.scrape MFF.FetchOutcome.non200 = MFF.fallbackPlans ∧
    MFF.scrape MFF.FetchOutcome.exn = MFF.fallbackPlans ∧
    MFF.fallbackPlans ≠ [] ∧
    Apex.createFallbackPlans [] ≠ [] ∧
    (MFF.scrape (MFF.FetchOutcome.ok none none [mffLiveExample])).head? =
      (MFF.scrape MFF.FetchOutcome.non200).head? := by
  refine ⟨rfl, rfl, ?_, ?_, rfl⟩
  · decide
  · decide

/-! ### Claim C5 : the standardized output schema -/

def apexSampleCand : Apex.Candidate :=
  ⟨"$25K", "Full Account", "$147/Month", "", "$1,500", []⟩

def apexSamplePlan : Apex.TradingPlan :=
  ⟨"Apex Trader Funding", "$25K", "$147/Month", "", "Contact for codes",
   "Full Account", "4.5", "$1,500", apexSampleCand, []⟩

/-- C5, counterexample.  A standardized record contains exactly ten columns;
`account_type`, `drawdown_type`, `drawdown`, `daily_loss_limit`,
`activation_fee`, `reset_fee` and `source_url` are absent, so the claimed
seventeen-column set is not produced. -/
theorem claim_C5_counterexample :
    (Apex.standardizedRecord apexSamplePlan).map Prod.fst = Apex.standardColumns ∧
    "account_type" ∉ (Apex.standardizedRecord apexSamplePlan).map Prod.fst ∧
    "drawdown_type" ∉ (Apex.standardizedRecord apexSamplePlan).map Prod.fst ∧
    "drawdown" ∉ (Apex.standardizedRecord apexSamplePlan).map Prod.fst ∧
    "daily_loss_limit" ∉ (Apex.standardizedRecord apexSamplePlan).map Prod.fst ∧
    "activation_fee" ∉ (Apex.standardizedRecord apexSamplePlan).map Prod.fst ∧
    "reset_fee" ∉ (Apex.standardizedRecord apexSamplePlan).map Prod.fst ∧
    "source_url" ∉ (Apex.standardizedRecord apexSamplePlan).map Prod.fst := by
  decide

/-- C5 (amended).  Every record in the standardized output carries exactly
the ten columns `business_name, plan_name, account_size, price_raw,
funded_price, discount_code, trial_type, trustpilot_score, profit_goal,
source`; each value is a string field of the plan (an unextracted field
holds the empty string, never a null marker). -/
theorem claim_C5_theorem (plans : List Apex.TradingPlan) :
    ∀ r ∈ Apex.get_standardized_data plans, r.map Prod.fst = Apex.standardColumns := by
  intro r hr
  rcases List.mem_map.mp hr with ⟨p, _, hp⟩
  rw [← hp]
  rfl

/-- C5, witness: the theorem applied to a one-plan list. -/
theorem claim_C5_witness :
    (Apex.standardizedRecord apexSamplePlan).map Prod.fst = Apex.standardColumns :=
  claim_C5_theorem [apexSamplePlan] (Apex.standardizedRecord apexSamplePlan)
    (by simp [Apex.get_standardized_data])

/-! ### Claim C3 : the merge identity key -/

def apexCand207 : Apex.Candidate :=
  ⟨"$100K", "Full Account", "$207/Month", "", "$6,000", []⟩

def apexPlan207 : Apex.TradingPlan :=
  ⟨"Apex Trader Funding", "$100K", "$207/Month", "", "Contact for codes",
   "Full Account", "4.5", "$6,000", apexCand207, []⟩

def apexCand137 : Apex.Candidate :=
  ⟨"$100K", "Full Account", "$137/Month", "", "$2,000", []⟩

/-- C3, counterexample.  A candidate with the same account size and plan name
as an existing record but a different price is, per the claim, a different
logical plan and must be appended; `_merge_plan_data` instead treats it as
the same plan (price is not part of its identity key), merges it into the
existing record, and leaves the existing price in place — one record instead
of two, and the candidate's price is lost. -/
theorem claim_C3_counterexample :
    (Apex.mergePlanData [apexPlan207] apexCand137).length = 1 ∧
    (Apex.mergeSpecRule [apexPlan207] apexCand137).length = 2 ∧
    (Apex.mergePlanData [apexPlan207] apexCand137).map Apex.core =
      [Apex.core apexPlan207] ∧
    Apex.mergePlanData [apexPlan207] apexCand137 ≠
      Apex.mergeSpecRule [apexPlan207] apexCand137 := by
  refine ⟨by decide, by decide, by rfl, by decide⟩

/-- C3 (amended).  A candidate is treated as the same logical plan as an
existing record exactly when they agree on (account size, trial type) — the
source is fixed and the record's plan name is `account_size + " " +
trial_type`, but the price is NOT part of the identity key.  On a match the
first matching record is updated: a field that is empty there and non-empty
in the candidate is copied, a populated field is never overwritten; with no
match the candidate is appended as a new record. -/
theorem claim_C3_theorem (plans : List Apex.TradingPlan) (c : Apex.Candidate) :
    ((∀ p ∈ plans, ¬ Apex.matchesCand p c) →
      Apex.mergePlanData plans c = plans ++ [Apex.newPlanOf c]) ∧
    (∀ ps qs p, plans = ps ++ p :: qs → (∀ q ∈ ps, ¬ Apex.matchesCand q c) →
      Apex.matchesCand p c →
      Apex.mergePlanData plans c = ps ++ Apex.applyCand p c :: qs) ∧
    (∀ p : Apex.TradingPlan,
      (p.sale_price ≠ "" → (Apex.applyCand p c).sale_price = p.sale_price) ∧
      (p.sale_price = "" → c.sale_price ≠ "" →
        (Apex.applyCand p c).sale_price = c.sale_price) ∧
      (p.funded_full_price ≠ "" →
        (Apex.applyCand p c).funded_full_price = p.funded_full_price) ∧
      (p.funded_full_price = "" → c.funded_full_price ≠ "" →
        (Apex.applyCand p c).funded_full_price = c.funded_full_price) ∧
      (p.profit_goal ≠ "" → (Apex.applyCand p c).profit_goal = p.profit_goal) ∧
      (p.profit_goal = "" → c.profit_goal ≠ "" →
        (Apex.applyCand p c).profit_goal = c.profit_goal)) := by
  refine ⟨?_, ?_, ?_⟩
  · induction plans with
    | nil => intro _; rfl
    | cons p ps ih =>
      intro hno
      rw [Apex.mergePlanData_cons_neg p ps c (hno p (List.mem_cons_self p ps)),
        ih (fun q hq => hno q (List.mem_cons_of_mem p hq))]
      rfl
  · have key : ∀ ps qs (p : Apex.TradingPlan), (∀ q ∈ ps, ¬ Apex.matchesCand q c) →
        Apex.matchesCand p c →
        Apex.mergePlanData (ps ++ p :: qs) c = ps ++ Apex.applyCand p c :: qs := by
      intro ps
      induction ps with
      | nil =>
        intro qs p _ hm
        rw [List.nil_append, Apex.mergePlanData_cons_pos p qs c hm]
        rfl
      | cons q ps ih =>
        intro qs p hqs hm
        rw [List.cons_append,
          Apex.mergePlanData_cons_neg q (ps ++ p :: qs) c
            (hqs q (List.mem_cons_self q ps)),
          ih qs p (fun x hx => hqs x (List.mem_cons_of_mem q hx)) hm,
          List.cons_append]
    intro ps qs p heq hqs hm
    rw [heq]
    exact key ps qs p hqs hm
  · intro p
    refine ⟨fun h => ?_, fun h1 h2 => ?_, fun h => ?_, fun h1 h2 => ?_,
      fun h => ?_, fun h1 h2 => ?_⟩
    · rw [Apex.applyCand_sale_price, Apex.updField_keep _ _ h]
    · rw [Apex.applyCand_sale_price, Apex.updField_fill _ _ h1 h2]
    · rw [Apex.applyCand_funded, Apex.updField_keep _ _ h]
    · rw [Apex.applyCand_funded, Apex.updField_fill _ _ h1 h2]
    · rw [Apex.applyCand_profit_goal, Apex.updField_keep _ _ h]
    · rw [Apex.applyCand_profit_goal, Apex.updField_fill _ _ h1 h2]

def apexCandNoMatch : Apex.Candidate :=
  ⟨"$300K", "Full Account", "$499/Month", "", "$18,000", []⟩

/-- C3, witness: the amended theorem's no-match clause at a concrete input —
the unmatched candidate is appended. -/
theorem claim_C3_witness :
    Apex.mergePlanData [apexPlan207] apexCandNoMatch =
      [apexPlan207] ++ [Apex.newPlanOf apexCandNoMatch] :=
  (claim_C3_theorem [apexPlan207] apexCandNoMatch).1 (by decide)

/-! ### Claim C9 : merge idempotence -/

/-- C9.  Re-running the identical additional extraction pass on a record set
that already contains its merge result changes nothing observable: the
record count and every record's fields (all dataclass fields, including the
stored `additional_info`) are unchanged.  The hypothesis — every candidate
carries a non-empty `trial_type` — holds for every candidate
`_extract_pricing_plans` can emit, since a candidate with an account size
always got a trial type from the same title element. -/
theorem claim_C9_theorem (plans : List Apex.TradingPlan) (cs : List Apex.Candidate)
    (hct : ∀ c ∈ cs, c.trial_type ≠ "") :
    (Apex.mergeAllCands (Apex.mergeAllCands plans cs) cs).map Apex.core =
      (Apex.mergeAllCands plans cs).map Apex.core :=
  Apex.mergeAllCands_covered_core cs (Apex.mergeAllCands plans cs)
    (fun c hc => Apex.covers_after_pass cs hct plans c hc)

/-- C9, witness: the theorem applied to a concrete plan list and candidate
pass. -/
theorem claim_C9_witness :
    (Apex.mergeAllCands (Apex.mergeAllCands [apexPlan207] [apexCand137])
        [apexCand137]).map Apex.core =
      (Apex.mergeAllCands [apexPlan207] [apexCand137]).map Apex.core :=
  claim_C9_theorem [apexPlan207] [apexCand137] (by decide)

/-! ### Embedding of src/populate_trustpilot_scores.py

`get_trustpilot_score` (lines 10-161) loops over `max_retries` attempts; an
attempt either returns a score string (any of the early `return score`
statements), finds no rating, or raises a caught exception (including every
`requests.RequestException`).  After the loop the function returns the string
`"Not found"` — the same value whether the attempts found no rating or all
failed with request errors.  An attempt is therefore modelled by its
outcome. -/

inductive TPAttempt where
  | found (score : String)
  | noRating
  | requestError
deriving DecidableEq, Repr

/-- `get_trustpilot_score`, applied to the outcome of each of its
`max_retries` attempts. -/
def get_trustpilot_score : List TPAttempt → String
  | [] => "Not found"
  | TPAttempt.found s :: _ => s
  | TPAttempt.noRating :: rest => get_trustpilot_score rest
  | TPAttempt.requestError :: rest => get_trustpilot_score rest

/-! `populate_trustpilot_scores` (lines 163-239) walks the CSV rows; for each
row with a non-empty URL it derives the domain — `urlparse(url).netloc` with
a leading `"www."` stripped — consults the `domain_scores` cache, and only on
a miss calls `get_trustpilot_score`, recording the result under the domain.
Rows are modelled by their URL column (`none` for a NaN cell), the reputation
lookup by an opaque `lookup : String → String` (it is called with the full
URL), and the run state carries the cache, the list of domains for which the
lookup was invoked, and the per-row assigned scores. -/

/-- `urlparse(url).netloc`: strip a leading `scheme:` (a letter followed by
letters, digits, `+`, `-`, `.`), then, if the remainder starts with `//`,
take everything up to the next `/`, `?` or `#`; otherwise the netloc is
empty. -/
def isSchemeChar (c : Char) : Bool := c.isAlphanum || c = '+' || c = '-' || c = '.'

def schemeRest : List Char → Option (List Char)
  | [] => none
  | c :: cs => if c = ':' then some cs else if isSchemeChar c then schemeRest cs else none

def netloc (s : String) : String :=
  let cs := s.data
  let rest :=
    match cs with
    | c :: _ => if c.isAlpha then (schemeRest cs).getD cs else cs
    | [] => []
  match rest with
  | '/' :: '/' :: r =>
    ⟨r.takeWhile (fun c => c ≠ '/' && c ≠ '?' && c ≠ '#')⟩
  | _ => ""

/-- The domain identity: the host with a leading `"www."` label stripped
(`domain[4:]` when `domain.startswith('www.')`). -/
def domainOf (url : String) : String :=
  match (netloc url).data with
  | 'w' :: 'w' :: 'w' :: '.' :: rest => ⟨rest⟩
  | l => ⟨l⟩

def assocGet : List (String × String) → String → Option String
  | [], _ => none
  | kv :: l, k => if kv.1 = k then some kv.2 else assocGet l k

structure PopState where
  cache : List (String × String)
  calls : List String
  scores : List (Option String)
deriving Repr

/-- The body of the `for index, row in df.iterrows()` loop for one row. -/
def popStep (lookup : String → String) (st : PopState) (row : Option String) : PopState :=
  match row with
  | none => { st with scores := st.scores ++ [none] }
  | some url =>
    if url = "" then { st with scores := st.scores ++ [none] }
    else
      match assocGet st.cache (domainOf url) with
      | some s => { st with scores := st.scores ++ [some s] }
      | none =>
        { cache := (domainOf url, lookup url) :: st.cache
        , calls := st.calls ++ [domainOf url]
        , scores := st.scores ++ [some (lookup url)] }

def popRun (lookup : String → String) : List (Option String) → PopState → PopState
  | [], st => st
  | row :: rows, st => popRun lookup rows (popStep lookup st row)

/-- `populate_trustpilot_scores`, from the empty per-run cache. -/
def populate_trustpilot_scores (lookup : String → String)
    (rows : List (Option String)) : PopState :=
  popRun lookup rows ⟨[], [], []⟩

/-! ### Claim C7 : the failure sentinel of `get_trustpilot_score` -/

/-- C7, counterexample.  A run whose every attempt raises a request error
returns exactly the same `"Not found"` string as a run that reached the page
but found no rating: there is no distinct `"Error"` sentinel, so the two
outcomes are not distinguishable in the output. -/
theorem claim_C7_counterexample :
    get_trustpilot_score [TPAttempt.requestError, TPAttempt.requestError,
      TPAttempt.requestError] = "Not found" ∧
    get_trustpilot_score [TPAttempt.noRating, TPAttempt.noRating,
      TPAttempt.noRating] = "Not found" ∧
    get_trustpilot_score [TPAttempt.requestError, TPAttempt.requestError,
        TPAttempt.requestError] =
      get_trustpilot_score [TPAttempt.noRating, TPAttempt.noRating,
        TPAttempt.noRating] :=
  ⟨rfl, rfl, rfl⟩

def isFound : TPAttempt → Bool
  | TPAttempt.found _ => true
  | _ => false

/-- C7 (amended).  Whenever no attempt returns a score — whether because the
lookup itself failed on every attempt or because the page had no rating —
`get_trustpilot_score` returns the single sentinel `"Not found"`; the two
outcomes share one sentinel and cannot be told apart. -/
theorem claim_C7_theorem (attempts : List TPAttempt)
    (h : ∀ a ∈ attempts, isFound a = false) :
    get_trustpilot_score attempts = "Not found" := by
  induction attempts with
  | nil => rfl
  | cons a rest ih =>
    cases a with
    | found s => exact absurd (h (TPAttempt.found s) (List.mem_cons_self _ _)) (by simp [isFound])
    | noRating => exact ih (fun x hx => h x (List.mem_cons_of_mem _ hx))
    | requestError => exact ih (fun x hx => h x (List.mem_cons_of_mem _ hx))

/-- C7, witness: the amended theorem at a concrete all-error run. -/
theorem claim_C7_witness :
    get_trustpilot_score [TPAttempt.requestError, TPAttempt.noRating,
      TPAttempt.requestError] = "Not found" :=
  claim_C7_theorem [TPAttempt.requestError, TPAttempt.noRating,
    TPAttempt.requestError] (by decide)

/-! ### Claim C6 : one reputation lookup per domain -/

theorem assocGet_none_not_key (l : List (String × String)) (k : String) :
    assocGet l k = none → k ∉ l.map Prod.fst := by
  induction l with
  | nil => intro _ h; exact List.not_mem_nil k h
  | cons kv l ih =>
    intro h hmem
    by_cases hk : kv.1 = k
    · simp [assocGet, hk] at h
    · rw [show assocGet (kv :: l) k = assocGet l k by simp [assocGet, hk]] at h
      rcases List.mem_cons.mp hmem with heq | hmem2
      · exact hk heq.symm
      · exact ih h hmem2

theorem assocGet_mem (l : List (String × String)) (k v : String) :
    assocGet l k = some v → (k, v) ∈ l := by
  induction l with
  | nil => intro h; cases h
  | cons kv l ih =>
    intro h
    by_cases hk : kv.1 = k
    · rw [show assocGet (kv :: l) k = some kv.2 by simp [assocGet, hk]] at h
      injection h with hv
      have hkv : (k, v) = kv := by rw [← hk, ← hv]
      rw [hkv]
      exact List.mem_cons_self kv l
    · rw [show assocGet (kv :: l) k = assocGet l k by simp [assocGet, hk]] at h
      exact List.mem_cons_of_mem kv (ih h)

theorem assoc_unique (l : List (String × String)) (hn : (l.map Prod.fst).Nodup)
    (k v v2 : String) (h1 : (k, v) ∈ l) (h2 : (k, v2) ∈ l) : v = v2 := by
  induction l with
  | nil => exact absurd h1 (List.not_mem_nil _)
  | cons kv l ih =>
    rw [List.map_cons, List.nodup_cons] at hn
    rcases List.mem_cons.mp h1 with he1 | hm1 <;> rcases List.mem_cons.mp h2 with he2 | hm2
    · rw [← he1] at he2
      injection he2 with _ hv
      exact hv.symm
    · exfalso
      apply hn.1
      rw [← he1]
      exact List.mem_map.mpr ⟨(k, v2), hm2, rfl⟩
    · exfalso
      apply hn.1
      rw [← he2]
      exact List.mem_map.mpr ⟨(k, v), hm1, rfl⟩
    · exact ih hn.2 hm1 hm2

/-- Case analysis on one row: either the step leaves cache and calls alone,
or it is a cache miss on a non-empty URL, prepending the new entry and
recording one lookup call. -/
theorem popStep_cases (lookup : String → String) (st : PopState) (row : Option String) :
    ((popStep lookup st row).cache = st.cache ∧
      (popStep lookup st row).calls = st.calls) ∨
    (∃ url, row = some url ∧ url ≠ "" ∧
      assocGet st.cache (domainOf url) = none ∧
      (popStep lookup st row).cache = (domainOf url, lookup url) :: st.cache ∧
      (popStep lookup st row).calls = st.calls ++ [domainOf url]) := by
  cases row with
  | none => exact Or.inl ⟨rfl, rfl⟩
  | some url =>
    by_cases hu : url = ""
    · left
      constructor <;> simp [popStep, hu]
    · cases hc : assocGet st.cache (domainOf url) with
      | some s =>
        left
        constructor <;> simp [popStep, hu, hc]
      | none =>
        right
        exact ⟨url, rfl, hu, hc, by simp [popStep, hu, hc], by simp [popStep, hu, hc]⟩

theorem popRun_cache_mono (lookup : String → String) :
    ∀ (rows : List (Option String)) (st : PopState) (kv : String × String),
      kv ∈ st.cache → kv ∈ (popRun lookup rows st).cache := by
  intro rows
  induction rows with
  | nil => intro st kv h; exact h
  | cons row rows ih =>
    intro st kv h
    apply ih
    rcases popStep_cases lookup st row with ⟨hcache, _⟩ | ⟨url, _, _, _, hcache, _⟩
    · rw [hcache]; exact h
    · rw [hcache]; exact List.mem_cons_of_mem _ h

theorem popRun_keysNodup (lookup : String → String) :
    ∀ (rows : List (Option String)) (st : PopState),
      (st.cache.map Prod.fst).Nodup →
      ((popRun lookup rows st).cache.map Prod.fst).Nodup := by
  intro rows
  induction rows with
  | nil => intro st h; exact h
  | cons row rows ih =>
    intro st h
    apply ih
    rcases popStep_cases lookup st row with ⟨hcache, _⟩ | ⟨url, _, _, hmiss, hcache, _⟩
    · rw [hcache]; exact h
    · rw [hcache]
      simp only [List.map_cons, List.nodup_cons]
      exact ⟨assocGet_none_not_key st.cache (domainOf url) hmiss, h⟩

theorem popRun_calls (lookup : String → String) :
    ∀ (rows : List (Option String)) (st : PopState),
      st.calls.Nodup → (∀ d ∈ st.calls, d ∈ st.cache.map Prod.fst) →
      (popRun lookup rows st).calls.Nodup ∧
        ∀ d ∈ (popRun lookup rows st).calls,
          d ∈ (popRun lookup rows st).cache.map Prod.fst := by
  intro rows
  induction rows with
  | nil => intro st h1 h2; exact ⟨h1, h2⟩
  | cons row rows ih =>
    intro st h1 h2
    apply ih
    all_goals
      rcases popStep_cases lookup st row with ⟨hcache, hcalls⟩ |
        ⟨url, _, _, hmiss, hcache, hcalls⟩
    · rw [hcalls]; exact h1
    · rw [hcalls]
      have hnotin : domainOf url ∉ st.calls := fun hmem =>
        assocGet_none_not_key st.cache (domainOf url) hmiss (h2 _ hmem)
      simp [List.nodup_append, h1, hnotin]
    · rw [hcalls, hcache]
      exact h2
    · rw [hcalls, hcache]
      intro d hd
      rcases List.mem_append.mp hd with hd1 | hd2
      · exact List.mem_cons_of_mem _ (h2 d hd1)
      · rw [List.mem_singleton.mp hd2]
        simp

theorem get?_append_cons {α : Type} (xs : List α) (y : α) (t : List α) :
    (xs ++ y :: t).get? xs.length = some y := by
  induction xs with
  | nil => rfl
  | cons x xs ih => simpa using ih

theorem popStep_scores_shape (lookup : String → String) (st : PopState)
    (row : Option String) :
    ∃ x, (popStep lookup st row).scores = st.scores ++ [x] := by
  cases row with
  | none => exact ⟨none, rfl⟩
  | some url =>
    by_cases hu : url = ""
    · exact ⟨none, by simp [popStep, hu]⟩
    · cases hc : assocGet st.cache (domainOf url) with
      | some s => exact ⟨some s, by simp [popStep, hu, hc]⟩
      | none => exact ⟨some (lookup url), by simp [popStep, hu, hc]⟩

theorem popRun_scores_shape (lookup : String → String) :
    ∀ (rows : List (Option String)) (st : PopState),
      ∃ tail, (popRun lookup rows st).scores = st.scores ++ tail := by
  intro rows
  induction rows with
  | nil => intro st; exact ⟨[], (List.append_nil _).symm⟩
  | cons row rows ih =>
    intro st
    obtain ⟨x, hx⟩ := popStep_scores_shape lookup st row
    obtain ⟨tail, htail⟩ := ih (popStep lookup st row)
    refine ⟨x :: tail, ?_⟩
    show (popRun lookup rows (popStep lookup st row)).scores = st.scores ++ x :: tail
    rw [htail, hx, List.append_assoc]
    rfl

theorem popStep_score_mem (lookup : String → String) (st : PopState) (u : String)
    (hu : u ≠ "") :
    ∃ v, (popStep lookup st (some u)).scores = st.scores ++ [some v] ∧
      (domainOf u, v) ∈ (popStep lookup st (some u)).cache := by
  cases hc : assocGet st.cache (domainOf u) with
  | some s =>
    refine ⟨s, by simp [popStep, hu, hc], ?_⟩
    rw [show (popStep lookup st (some u)).cache = st.cache from by simp [popStep, hu, hc]]
    exact assocGet_mem st.cache (domainOf u) s hc
  | none =>
    refine ⟨lookup u, by simp [popStep, hu, hc], ?_⟩
    rw [show (popStep lookup st (some u)).cache =
      (domainOf u, lookup u) :: st.cache from by simp [popStep, hu, hc]]
    exact List.mem_cons_self _ _

theorem popRun_score_correct (lookup : String → String) :
    ∀ (rows : List (Option String)) (st : PopState) (i : Nat) (u : String),
      rows.get? i = some (some u) → u ≠ "" →
      ∃ v, (popRun lookup rows st).scores.get? (st.scores.length + i) =
          some (some v) ∧
        (domainOf u, v) ∈ (popRun lookup rows st).cache := by
  intro rows
  induction rows with
  | nil => intro st i u h _; cases h
  | cons row rows ih =>
    intro st i u hget hu
    cases i with
    | zero =>
      have hrow : row = some u := by injection hget
      subst hrow
      obtain ⟨v, hsc, hmem⟩ := popStep_score_mem lookup st u hu
      obtain ⟨tail, htail⟩ :=
        popRun_scores_shape lookup rows (popStep lookup st (some u))
      refine ⟨v, ?_, popRun_cache_mono lookup rows _ _ hmem⟩
      show (popRun lookup rows (popStep lookup st (some u))).scores.get?
        (st.scores.length + 0) = some (some v)
      rw [htail, hsc, Nat.add_zero, List.append_assoc]
      exact get?_append_cons st.scores (some v) tail
    | succ i =>
      have hget2 : rows.get? i = some (some u) := hget
      obtain ⟨v, hv, hmem⟩ := ih (popStep lookup st row) i u hget2 hu
      obtain ⟨x, hx⟩ := popStep_scores_shape lookup st row
      refine ⟨v, ?_, hmem⟩
      have hlen : st.scores.length + (i + 1) =
          (popStep lookup st row).scores.length + i := by
        rw [hx, List.length_append]
        simp
        omega
      rw [hlen]
      exact hv

/-- C6.  Within one run, `get_trustpilot_score` is invoked at most once per
domain identity (the calls list holds no duplicate domain), and any two rows
whose URLs share a domain identity receive the identical cached score. -/
theorem claim_C6_theorem (lookup : String → String) (rows : List (Option String)) :
    (populate_trustpilot_scores lookup rows).calls.Nodup ∧
    ∀ i j ui uj, rows.get? i = some (some ui) → rows.get? j = some (some uj) →
      ui ≠ "" → uj ≠ "" → domainOf ui = domainOf uj →
      (populate_trustpilot_scores lookup rows).scores.get? i =
        (populate_trustpilot_scores lookup rows).scores.get? j := by
  constructor
  · exact (popRun_calls lookup rows ⟨[], [], []⟩ List.nodup_nil
      (fun d hd => absurd hd (List.not_mem_nil d))).1
  · intro i j ui uj hi hj hui huj hdom
    obtain ⟨vi, hvi, hmi⟩ := popRun_score_correct lookup rows ⟨[], [], []⟩ i ui hi hui
    obtain ⟨vj, hvj, hmj⟩ := popRun_score_correct lookup rows ⟨[], [], []⟩ j uj hj huj
    have hkeys := popRun_keysNodup lookup rows ⟨[], [], []⟩ (by simp)
    rw [hdom] at hmi
    have hveq : vi = vj := assoc_unique _ hkeys _ _ _ hmi hmj
    rw [show ({ cache := [], calls := [], scores := [] } : PopState).scores.length + i
        = i from by simp] at hvi
    rw [show ({ cache := [], calls := [], scores := [] } : PopState).scores.length + j
        = j from by simp] at hvj
    show (popRun lookup rows ⟨[], [], []⟩).scores.get? i =
      (popRun lookup rows ⟨[], [], []⟩).scores.get? j
    rw [hvi, hvj, hveq]

def c6rows : List (Option String) :=
  [some "https://www.tradeify.co/", some "https://tradeify.co/pricing", none]

def c6look : String → String := fun _ => "4.4"

/-- C6, witness: two rows whose URLs share the domain `tradeify.co` (one with
the `www.` label) receive the identical score, and the lookup-call list has
no duplicate. -/
theorem claim_C6_witness :
    (populate_trustpilot_scores c6look c6rows).calls.Nodup ∧
    (populate_trustpilot_scores c6look c6rows).scores.get? 0 =
      (populate_trustpilot_scores c6look c6rows).scores.get? 1 :=
  ⟨(claim_C6_theorem c6look c6rows).1,
   (claim_C6_theorem c6look c6rows).2 0 1 "https://www.tradeify.co/"
     "https://tradeify.co/pricing" rfl rfl (by decide) (by decide) (by decide)⟩
